import Mathlib

/-!
Verification of the Brownian-motion path generator, playback controller and
renderer range policy of `brownian-motion-viz`
(`src/brownian-motion-simulator.tsx`), via a shallow embedding: real-number
arithmetic models the double-precision arithmetic of the source, the ambient
random source is an explicit sequence of draws, and the React animation
machinery (`useEffect` + `requestAnimationFrame`) is a step function on an
explicit state record. A separate model with IEEE special values (`JsNum`)
captures the behaviour of `Math.log` / `Math.sqrt` on degenerate draws.
-/

namespace BrownianViz

noncomputable section

/-- A sample point of the path: `interface BrownianPoint { time; value }`. -/
structure BrownianPoint where
  time : ℝ
  value : ℝ
  deriving DecidableEq

/-- The per-step increment `dX = drift * dt + diffusion * Math.sqrt(dt) * Z(i)`
computed in the body of the `for` loop of `generatePath`. -/
def dX (drift diffusion dt : ℝ) (Z : ℕ → ℝ) (i : ℕ) : ℝ :=
  drift * dt + diffusion * Real.sqrt dt * Z i

/-- The `for (let i = 1; i <= steps; i++)` loop of `generatePath`, as a
recursion on the number of remaining iterations: `i` is the loop index,
`rem` the remaining iteration count, `v` the mutable `currentValue`.  Each
iteration pushes `{ time: i * dt, value: currentValue }`. -/
def genLoop (drift diffusion dt : ℝ) (Z : ℕ → ℝ) : ℕ → ℕ → ℝ → List BrownianPoint
  | _, 0, _ => []
  | i, rem + 1, v =>
    let v2 := v + dX drift diffusion dt Z i
    { time := (i : ℝ) * dt, value := v2 } :: genLoop drift diffusion dt Z (i + 1) rem v2

/-- `generatePath` of the source: `dt = intervalLength / steps`, the path
starts with `{ time: 0, value: 0 }` and the loop runs for `i = 1 .. steps`
starting from `currentValue = 0`.  The normal draws consumed by the loop are
the explicit sequence `Z` (`Z i` is the draw of iteration `i`). -/
def generatePath (drift diffusion : ℝ) (steps : ℕ) (intervalLength : ℝ)
    (Z : ℕ → ℝ) : List BrownianPoint :=
  let dt := intervalLength / (steps : ℝ)
  { time := 0, value := 0 } :: genLoop drift diffusion dt Z 1 steps 0

/-- The component state relevant to playback: `isAnimating`, `currentStep`,
`path` (the revealed samples) and `fullPath`.  The `animationRef` scheduling
slot is not stored: after every state change the animation `useEffect`
re-runs, its cleanup cancels any scheduled frame, and it re-schedules exactly
when its guard holds, so whether a tick is pending is the derived function
`pendingTick` below. -/
structure SimState where
  isAnimating : Bool
  currentStep : ℕ
  path : List BrownianPoint
  fullPath : List BrownianPoint

/-- The spec's `revealedCount`: the revealed samples are
`fullPath[0..currentStep]`, i.e. `currentStep + 1` of them. -/
def revealedCount (s : SimState) : ℕ := s.currentStep + 1

/-- A frame is scheduled exactly when the animation effect's guard
`isAnimating && currentStep < fullPath.length - 1` holds (the effect re-runs
on every change of its dependencies and its cleanup cancels the previous
frame).  `Nat` truncated subtraction agrees with the JavaScript comparison
here: when `fullPath.length ≤ 1` both guards are false. -/
def pendingTick (s : SimState) : Bool :=
  s.isAnimating && decide (s.currentStep < s.fullPath.length - 1)

/-- One firing of the scheduled `animate` callback, followed by the re-run of
the animation effect.  `setCurrentStep` maps `prev` to `next = prev + 1` and
sets `path = fullPath.slice(0, next + 1)`; the closure then checks the stale
`currentStep` (the value captured when the effect ran, i.e. `prev`) against
`fullPath.length - 2` and either re-schedules or sets `isAnimating` false.
If no frame is scheduled, nothing happens. -/
def tick (s : SimState) : SimState :=
  if pendingTick s then
    { isAnimating := decide (s.currentStep < s.fullPath.length - 2)
      currentStep := s.currentStep + 1
      path := s.fullPath.take (s.currentStep + 2)
      fullPath := s.fullPath }
  else s

/-- `toggleAnimation`: pause when animating (also cancelling the scheduled
frame — reflected in `pendingTick` becoming false), start otherwise. -/
def toggleAnimation (s : SimState) : SimState :=
  if s.isAnimating then { s with isAnimating := false }
  else { s with isAnimating := true }

/-- `resetSimulation`: stop animating, reset `currentStep` to 0, clear the
revealed `path`, cancel any scheduled frame, and regenerate `fullPath` with
the current parameters and a fresh draw sequence `Z`. -/
def resetSimulation (drift diffusion : ℝ) (steps : ℕ) (intervalLength : ℝ)
    (Z : ℕ → ℝ) (_s : SimState) : SimState :=
  { isAnimating := false
    currentStep := 0
    path := []
    fullPath := generatePath drift diffusion steps intervalLength Z }

/-- A stopped state holding a full path `P`: `isAnimating = false`,
`currentStep = 0`, no revealed samples — the state right after a reset that
produced `P`. -/
def stoppedState (P : List BrownianPoint) : SimState :=
  { isAnimating := false, currentStep := 0, path := [], fullPath := P }

/-- `n` consecutive firings of the animation callback. -/
def tickN : ℕ → SimState → SimState
  | 0, s => s
  | n + 1, s => tick (tickN n s)

/-- The operations the enclosing UI can perform on the playback state. -/
inductive Op
  | toggle
  | reset (drift diffusion : ℝ) (steps : ℕ) (intervalLength : ℝ) (Z : ℕ → ℝ)
  | tickOp

/-- Apply one operation. -/
def applyOp : Op → SimState → SimState
  | Op.toggle, s => toggleAnimation s
  | Op.reset d g n k Z, s => resetSimulation d g n k Z s
  | Op.tickOp, s => tick s

/-- The renderer's value-axis range (draw effect): `allValues` are the
values of the FULL path, `minValue = Math.min(...allValues, 0)`,
`maxValue = Math.max(...allValues, 0)`,
`maxAbsValue = Math.max(|minValue|, |maxValue|)`,
`range = Math.max(maxAbsValue * 1.2, 0.5)`. -/
def computeRange (fullPath : List BrownianPoint) : ℝ :=
  let allValues := fullPath.map (fun p => p.value)
  let minValue := allValues.foldr min 0
  let maxValue := allValues.foldr max 0
  let maxAbsValue := max |minValue| |maxValue|
  max (maxAbsValue * 1.2) 0.5

/-- The maximum absolute value over the full path (0 for the empty path):
the quantity the spec's range formula is phrased in. -/
def pathMaxAbs (fullPath : List BrownianPoint) : ℝ :=
  (fullPath.map (fun p => |p.value|)).foldr max 0

/-- `currentValue = path.length > 0 ? path[path.length - 1].value : 0`. -/
def currentValue (path : List BrownianPoint) : ℝ :=
  if 0 < path.length then
    (path.getD (path.length - 1) { time := 0, value := 0 }).value
  else 0

/-- `currentTime = path.length > 0 ? path[path.length - 1].time : 0`. -/
def currentTime (path : List BrownianPoint) : ℝ :=
  if 0 < path.length then
    (path.getD (path.length - 1) { time := 0, value := 0 }).time
  else 0

/-- A concrete running state with an empty full path, used as witness input. -/
def demoRunning : SimState :=
  { isAnimating := true, currentStep := 0, path := [], fullPath := [] }

/-- A concrete two-sample full path, used as witness input. -/
def demoPath2 : List BrownianPoint :=
  [{ time := 0, value := 0 }, { time := 1, value := 2 }]

/-- A concrete running state holding `demoPath2` with nothing revealed yet. -/
def demoRunning2 : SimState :=
  { isAnimating := true, currentStep := 0, path := [], fullPath := demoPath2 }

/-- A concrete three-sample full path, used as witness input. -/
def demoPath3 : List BrownianPoint :=
  [{ time := 0, value := 0 }, { time := 1, value := 2 }, { time := 2, value := 3 }]

/-! ### IEEE-special-value model for the Box–Muller sampler

`generateNormalRandom` computes `Math.sqrt(-2 * Math.log(u1)) *
Math.cos(2 * Math.PI * u2)` with `u1, u2 = Math.random()`, whose range is
`[0, 1)`: `u1` can be exactly `0`, and `Math.log(0)` is `-Infinity`.  The
real-valued model above cannot express that, so the sampler (and one run of
the generator) is also modelled over JavaScript numbers with the special
values `Infinity`, `-Infinity` and `NaN` made explicit. -/

/-- A JavaScript number: a finite value, `Infinity`, `-Infinity`, or `NaN`. -/
inductive JsNum
  | fin : ℝ → JsNum
  | inf : JsNum
  | ninf : JsNum
  | nan : JsNum
  deriving DecidableEq

/-- IEEE addition on the special values used by the generator. -/
def jsAdd : JsNum → JsNum → JsNum
  | .nan, _ => .nan
  | _, .nan => .nan
  | .fin a, .fin b => .fin (a + b)
  | .inf, .ninf => .nan
  | .ninf, .inf => .nan
  | .inf, _ => .inf
  | _, .inf => .inf
  | .ninf, _ => .ninf
  | _, .ninf => .ninf

/-- IEEE multiplication: `±Infinity * 0 = NaN`, otherwise signs propagate. -/
def jsMul : JsNum → JsNum → JsNum
  | .nan, _ => .nan
  | _, .nan => .nan
  | .fin a, .fin b => .fin (a * b)
  | .inf, .fin b => if 0 < b then .inf else if b < 0 then .ninf else .nan
  | .fin a, .inf => if 0 < a then .inf else if a < 0 then .ninf else .nan
  | .ninf, .fin b => if 0 < b then .ninf else if b < 0 then .inf else .nan
  | .fin a, .ninf => if 0 < a then .ninf else if a < 0 then .inf else .nan
  | .inf, .inf => .inf
  | .inf, .ninf => .ninf
  | .ninf, .inf => .ninf
  | .ninf, .ninf => .inf

/-- IEEE division (signed zero ignored: division by `0` follows the sign of
the numerator). -/
def jsDiv : JsNum → JsNum → JsNum
  | .nan, _ => .nan
  | _, .nan => .nan
  | .fin a, .fin b =>
    if b = 0 then (if 0 < a then .inf else if a < 0 then .ninf else .nan)
    else .fin (a / b)
  | .inf, .fin b => if b < 0 then .ninf else .inf
  | .ninf, .fin b => if b < 0 then .inf else .ninf
  | .fin _, .inf => .fin 0
  | .fin _, .ninf => .fin 0
  | _, _ => .nan

/-- `Math.sqrt`: `NaN` on negative input, `Infinity` at `Infinity`. -/
def jsSqrt : JsNum → JsNum
  | .fin a => if a < 0 then .nan else .fin (Real.sqrt a)
  | .inf => .inf
  | .ninf => .nan
  | .nan => .nan

/-- `Math.log`: `-Infinity` at `0`, `NaN` on negative input. -/
def jsLog : JsNum → JsNum
  | .fin a => if 0 < a then .fin (Real.log a) else if a = 0 then .ninf else .nan
  | .inf => .inf
  | .ninf => .nan
  | .nan => .nan

/-- `Math.cos`: finite on finite input, `NaN` on non-finite input. -/
def jsCos : JsNum → JsNum
  | .fin a => .fin (Real.cos a)
  | _ => .nan

/-- `generateNormalRandom` over JavaScript numbers:
`Math.sqrt(-2 * Math.log(u1)) * Math.cos(2 * Math.PI * u2)` applied directly
to the two uniform draws — the source has no branch, in particular no
resampling on `u1 = 0`. -/
def jsGenerateNormalRandom (u1 u2 : ℝ) : JsNum :=
  jsMul (jsSqrt (jsMul (.fin (-2)) (jsLog (.fin u1))))
    (jsCos (jsMul (jsMul (.fin 2) (.fin Real.pi)) (.fin u2)))

/-- A path sample over JavaScript numbers. -/
structure JsPoint where
  time : JsNum
  value : JsNum
  deriving DecidableEq

/-- The generator loop over JavaScript numbers; `U i` is the pair of uniform
draws consumed by iteration `i`. -/
def jsGenLoop (drift diffusion : ℝ) (dt : JsNum) (U : ℕ → ℝ × ℝ) :
    ℕ → ℕ → JsNum → List JsPoint
  | _, 0, _ => []
  | i, rem + 1, v =>
    let z := jsGenerateNormalRandom (U i).1 (U i).2
    let dx := jsAdd (jsMul (.fin drift) dt) (jsMul (jsMul (.fin diffusion) (jsSqrt dt)) z)
    let v2 := jsAdd v dx
    { time := jsMul (.fin (i : ℝ)) dt, value := v2 } ::
      jsGenLoop drift diffusion dt U (i + 1) rem v2

/-- `generatePath` over JavaScript numbers. -/
def jsGeneratePath (drift diffusion : ℝ) (steps : ℕ) (intervalLength : ℝ)
    (U : ℕ → ℝ × ℝ) : List JsPoint :=
  let dt := jsDiv (.fin intervalLength) (.fin (steps : ℝ))
  { time := .fin 0, value := .fin 0 } :: jsGenLoop drift diffusion dt U 1 steps (.fin 0)

/-! ### Generator lemmas -/

/-- The loop emits exactly one sample per remaining iteration. -/
theorem genLoop_length (drift diffusion dt : ℝ) (Z : ℕ → ℝ) :
    ∀ (rem i : ℕ) (v : ℝ), (genLoop drift diffusion dt Z i rem v).length = rem := by
  intro rem
  induction rem with
  | zero => intro i v; simp [genLoop]
  | succ n ih => intro i v; simp [genLoop, ih]

/-- Pointwise description of the loop output: starting at index `i` with
accumulator `v`, the `j`-th emitted sample is at time `(i + j) * dt` and its
value is `v` plus the partial sum of the increments of iterations
`i, i+1, …, i+j`. -/
theorem genLoop_getD (drift diffusion dt : ℝ) (Z : ℕ → ℝ) :
    ∀ (rem i : ℕ) (v : ℝ) (j : ℕ), j < rem →
      (genLoop drift diffusion dt Z i rem v).getD j { time := 0, value := 0 } =
        { time := ((i + j : ℕ) : ℝ) * dt
          value := v + ∑ k ∈ Finset.range (j + 1), dX drift diffusion dt Z (i + k) } := by
  intro rem
  induction rem with
  | zero => intro i v j hj; omega
  | succ n ih =>
    intro i v j hj
    cases j with
    | zero =>
      simp [genLoop]
    | succ j =>
      have hj' : j < n := by omega
      have h1 := ih (i + 1) (v + dX drift diffusion dt Z i) j hj'
      simp only [genLoop, List.getD_cons_succ, h1, BrownianPoint.mk.injEq]
      refine ⟨by push_cast; ring, ?_⟩
      have hsum : ∑ k ∈ Finset.range (j + 1 + 1), dX drift diffusion dt Z (i + k) =
          (∑ k ∈ Finset.range (j + 1), dX drift diffusion dt Z (i + 1 + k)) +
            dX drift diffusion dt Z i := by
        rw [Finset.sum_range_succ']
        congr 1
        exact Finset.sum_congr rfl fun k _ => by
          rw [show i + (k + 1) = i + 1 + k by omega]
      rw [hsum]
      ring

/-- Length of the generated path. -/
theorem generatePath_length (drift diffusion : ℝ) (steps : ℕ) (k : ℝ) (Z : ℕ → ℝ) :
    (generatePath drift diffusion steps k Z).length = steps + 1 := by
  simp [generatePath, genLoop_length]

/-- Sample `i` of the generated path, for `i ≤ steps`. -/
theorem generatePath_getD (drift diffusion : ℝ) (steps : ℕ) (k : ℝ) (Z : ℕ → ℝ)
    (i : ℕ) (hi : i ≤ steps) :
    (generatePath drift diffusion steps k Z).getD i { time := 0, value := 0 } =
      { time := (i : ℝ) * (k / (steps : ℝ))
        value := ∑ m ∈ Finset.range i, dX drift diffusion (k / (steps : ℝ)) Z (1 + m) } := by
  cases i with
  | zero => simp [generatePath]
  | succ j =>
    have hj : j < steps := by omega
    simp only [generatePath, List.getD_cons_succ]
    rw [genLoop_getD drift diffusion (k / (steps : ℝ)) Z steps 1 0 j hj]
    simp only [BrownianPoint.mk.injEq]
    constructor
    · push_cast; ring
    · rw [zero_add]

/-- With `drift = 0` and `diffusion = 0` every increment vanishes, so the
loop carries its accumulator unchanged: every emitted value equals `v`. -/
theorem genLoop_value_const (dt : ℝ) (Z : ℕ → ℝ) :
    ∀ (rem i : ℕ) (v : ℝ) (p : BrownianPoint),
      p ∈ genLoop 0 0 dt Z i rem v → p.value = v := by
  intro rem
  induction rem with
  | zero => intro i v p hp; simp [genLoop] at hp
  | succ n ih =>
    intro i v p hp
    simp only [genLoop, List.mem_cons] at hp
    have hv2 : v + dX 0 0 dt Z i = v := by simp [dX]
    rcases hp with h | h
    · rw [h, hv2]
    · have := ih (i + 1) (v + dX 0 0 dt Z i) p h
      rwa [hv2] at this

/-! ### Claim theorems -/

/-- C1: for every `stepCount > 0` and `intervalLength > 0`, `generatePath`
returns exactly `stepCount + 1` samples, the first sample is
`{time: 0, value: 0}`, the time of sample `i` is
`i * (intervalLength / stepCount)`, and the times are strictly increasing. -/
theorem c1_generate_structure (drift diffusion : ℝ) (steps : ℕ) (k : ℝ) (Z : ℕ → ℝ)
    (hsteps : 0 < steps) (hk : 0 < k) :
    (generatePath drift diffusion steps k Z).length = steps + 1 ∧
    (generatePath drift diffusion steps k Z).getD 0 { time := 0, value := 0 } =
      { time := 0, value := 0 } ∧
    (∀ i, i ≤ steps →
      ((generatePath drift diffusion steps k Z).getD i { time := 0, value := 0 }).time =
        (i : ℝ) * (k / (steps : ℝ))) ∧
    ∀ i j, i < j → j ≤ steps →
      ((generatePath drift diffusion steps k Z).getD i { time := 0, value := 0 }).time <
        ((generatePath drift diffusion steps k Z).getD j { time := 0, value := 0 }).time := by
  have htime : ∀ i, i ≤ steps →
      ((generatePath drift diffusion steps k Z).getD i { time := 0, value := 0 }).time =
        (i : ℝ) * (k / (steps : ℝ)) := by
    intro i hi
    rw [generatePath_getD drift diffusion steps k Z i hi]
  refine ⟨generatePath_length drift diffusion steps k Z, by simp [generatePath], htime, ?_⟩
  intro i j hij hj
  rw [htime i (le_of_lt (lt_of_lt_of_le hij hj)), htime j hj]
  have hdt : 0 < k / (steps : ℝ) := by
    apply div_pos hk
    exact_mod_cast hsteps
  exact mul_lt_mul_of_pos_right (by exact_mod_cast hij) hdt

/-- Witness for C1 at `drift = 1`, `diffusion = 2`, `steps = 3`, `k = 5`. -/
theorem c1_generate_structure_witness :
    (generatePath 1 2 3 5 (fun _ => 0)).length = 3 + 1 ∧
    (generatePath 1 2 3 5 (fun _ => 0)).getD 0 { time := 0, value := 0 } =
      { time := 0, value := 0 } ∧
    (∀ i, i ≤ 3 →
      ((generatePath 1 2 3 5 (fun _ => 0)).getD i { time := 0, value := 0 }).time =
        (i : ℝ) * (5 / ((3 : ℕ) : ℝ))) ∧
    ∀ i j, i < j → j ≤ 3 →
      ((generatePath 1 2 3 5 (fun _ => 0)).getD i { time := 0, value := 0 }).time <
        ((generatePath 1 2 3 5 (fun _ => 0)).getD j { time := 0, value := 0 }).time :=
  c1_generate_structure 1 2 3 5 (fun _ => 0) (by norm_num) (by norm_num)

/-- C2: the generated values satisfy the Euler–Maruyama recurrence: the value
of sample `0` is `0` and, for `1 ≤ i ≤ stepCount`, the value of sample `i` is
the value of sample `i - 1` plus `drift * dt + diffusion * sqrt dt * Z i`,
with `dt = intervalLength / stepCount` and `Z i` the draw of iteration `i`. -/
theorem c2_euler_maruyama_recurrence (drift diffusion : ℝ) (steps : ℕ) (k : ℝ)
    (Z : ℕ → ℝ) (i : ℕ) (h1 : 1 ≤ i) (h2 : i ≤ steps) :
    ((generatePath drift diffusion steps k Z).getD 0 { time := 0, value := 0 }).value = 0 ∧
    ((generatePath drift diffusion steps k Z).getD i { time := 0, value := 0 }).value =
      ((generatePath drift diffusion steps k Z).getD (i - 1) { time := 0, value := 0 }).value +
        drift * (k / (steps : ℝ)) + diffusion * Real.sqrt (k / (steps : ℝ)) * Z i := by
  refine ⟨by simp [generatePath], ?_⟩
  obtain ⟨j, rfl⟩ : ∃ j, i = j + 1 := ⟨i - 1, by omega⟩
  have hj : j ≤ steps := by omega
  rw [generatePath_getD drift diffusion steps k Z (j + 1) h2]
  rw [show j + 1 - 1 = j from rfl, generatePath_getD drift diffusion steps k Z j hj]
  simp only
  rw [Finset.sum_range_succ]
  simp only [dX, show 1 + j = j + 1 from by omega]
  ring

/-- Witness for C2 at `drift = 1`, `diffusion = 2`, `steps = 3`, `k = 5`,
`i = 2`, draws all `1/2`. -/
theorem c2_euler_maruyama_recurrence_witness :
    ((generatePath 1 2 3 5 (fun _ => 1/2)).getD 0 { time := 0, value := 0 }).value = 0 ∧
    ((generatePath 1 2 3 5 (fun _ => 1/2)).getD 2 { time := 0, value := 0 }).value =
      ((generatePath 1 2 3 5 (fun _ => 1/2)).getD (2 - 1) { time := 0, value := 0 }).value +
        1 * (5 / ((3 : ℕ) : ℝ)) + 2 * Real.sqrt (5 / ((3 : ℕ) : ℝ)) * (1/2) :=
  c2_euler_maruyama_recurrence 1 2 3 5 (fun _ => 1/2) 2 (by norm_num) (by norm_num)

/-- C7: with `drift = 0` and `diffusion = 0` (and `stepCount > 0`,
`intervalLength > 0`), every value of the generated path is exactly `0`, for
every draw sequence `Z`. -/
theorem c7_no_noise_zero (steps : ℕ) (k : ℝ) (Z : ℕ → ℝ)
    (_hsteps : 0 < steps) (_hk : 0 < k) :
    ∀ p ∈ generatePath 0 0 steps k Z, p.value = 0 := by
  intro p hp
  simp only [generatePath, List.mem_cons] at hp
  rcases hp with h | h
  · rw [h]
  · exact genLoop_value_const (k / (steps : ℝ)) Z steps 1 0 p h

/-- Witness for C7 at `steps = 3`, `k = 5`, draws all `7`, evaluated at the
second sample of the path. -/
theorem c7_no_noise_zero_witness :
    ((generatePath 0 0 3 5 (fun _ => 7)).getD 1 { time := 0, value := 0 }).value = 0 :=
  c7_no_noise_zero 3 5 (fun _ => 7) (by norm_num) (by norm_num) _ (by
    have h1 : 1 < (generatePath 0 0 3 5 (fun _ => 7)).length := by
      rw [generatePath_length]
      norm_num
    rw [List.getD_eq_getElem _ _ h1]
    exact List.getElem_mem h1)

/-! ### Playback lemmas -/

/-- When no frame is scheduled, a tick does nothing. -/
theorem tick_of_not_pending (s : SimState) (h : pendingTick s = false) : tick s = s := by
  simp [tick, h]

/-- Ticks compose additively. -/
theorem tickN_add (m k : ℕ) (s : SimState) : tickN (m + k) s = tickN m (tickN k s) := by
  induction m with
  | zero => simp [tickN]
  | succ n ih =>
    rw [show n + 1 + k = (n + k) + 1 from by omega]
    simp only [tickN]
    rw [ih]

/-- A fixed point of `tick` stays fixed under any number of ticks. -/
theorem tickN_fix (s : SimState) (h : tick s = s) : ∀ m, tickN m s = s := by
  intro m
  induction m with
  | zero => rfl
  | succ n ih => simp [tickN, ih, h]

/-- `toggleAnimation` touches only the `isAnimating` flag. -/
theorem toggleAnimation_fields (s : SimState) :
    (toggleAnimation s).path = s.path ∧ (toggleAnimation s).currentStep = s.currentStep ∧
      (toggleAnimation s).fullPath = s.fullPath := by
  by_cases h : s.isAnimating = true
  · simp [toggleAnimation, h]
  · simp only [Bool.not_eq_true] at h
    simp [toggleAnimation, h]

/-- State reached after `k ≤ len(P) - 1` ticks from a freshly started run:
the step counter is `k`, animation continues exactly while `k < len(P) - 1`,
and the full path is untouched. -/
theorem tickN_run (P : List BrownianPoint) (hP : 2 ≤ P.length) :
    ∀ k, k ≤ P.length - 1 →
      (tickN k (toggleAnimation (stoppedState P))).currentStep = k ∧
      (tickN k (toggleAnimation (stoppedState P))).isAnimating =
        decide (k < P.length - 1) ∧
      (tickN k (toggleAnimation (stoppedState P))).fullPath = P := by
  intro k
  induction k with
  | zero =>
    intro _
    have h0 : (0 : ℕ) < P.length - 1 := by omega
    refine ⟨rfl, ?_, rfl⟩
    simp [tickN, toggleAnimation, stoppedState, h0]
  | succ n ih =>
    intro hk
    obtain ⟨hcs, hanim, hfp⟩ := ih (by omega)
    have hanim' : (tickN n (toggleAnimation (stoppedState P))).isAnimating = true := by
      rw [hanim]
      simpa using by omega
    have hpend : pendingTick (tickN n (toggleAnimation (stoppedState P))) = true := by
      simp only [pendingTick, hanim', hcs, hfp, Bool.true_and]
      simpa using by omega
    simp only [tickN, tick, hpend, if_true]
    refine ⟨by rw [hcs], ?_, by rw [hfp]⟩
    rw [hcs, hfp]
    exact decide_eq_decide.mpr (by omega)

/-! ### More claim theorems -/

/-- C3: from Stopped with `revealedCount = 1`, starting and letting `N` ticks
elapse yields `revealedCount = min (1 + N) (len P)`; once `revealedCount`
reaches `len P`, `isAnimating` is false, no frame is scheduled and a further
tick is a no-op; and every operation preserves
`revealedCount ≤ len fullPath`. -/
theorem c3_playback_progress (P : List BrownianPoint) (hP : 2 ≤ P.length) (N : ℕ)
    (s : SimState) (op : Op) (hInv : revealedCount s ≤ s.fullPath.length) :
    revealedCount (tickN N (toggleAnimation (stoppedState P))) = min (1 + N) P.length ∧
    (P.length - 1 ≤ N →
      (tickN N (toggleAnimation (stoppedState P))).isAnimating = false ∧
      pendingTick (tickN N (toggleAnimation (stoppedState P))) = false ∧
      tick (tickN N (toggleAnimation (stoppedState P))) =
        tickN N (toggleAnimation (stoppedState P))) ∧
    revealedCount (applyOp op s) ≤ (applyOp op s).fullPath.length := by
  have hmain : revealedCount (tickN N (toggleAnimation (stoppedState P))) =
      min (1 + N) P.length ∧
      (P.length - 1 ≤ N →
        (tickN N (toggleAnimation (stoppedState P))).isAnimating = false ∧
        pendingTick (tickN N (toggleAnimation (stoppedState P))) = false ∧
        tick (tickN N (toggleAnimation (stoppedState P))) =
          tickN N (toggleAnimation (stoppedState P))) := by
    rcases le_or_lt N (P.length - 1) with hN | hN
    · obtain ⟨hcs, hanim, hfp⟩ := tickN_run P hP N hN
      constructor
      · simp only [revealedCount, hcs]
        omega
      · intro hge
        have hNe : N = P.length - 1 := by omega
        have hfalse : (tickN N (toggleAnimation (stoppedState P))).isAnimating = false := by
          rw [hanim, hNe]
          simp
        have hpend : pendingTick (tickN N (toggleAnimation (stoppedState P))) = false := by
          simp [pendingTick, hfalse]
        exact ⟨hfalse, hpend, tick_of_not_pending _ hpend⟩
    · obtain ⟨hcs, hanim, hfp⟩ := tickN_run P hP (P.length - 1) le_rfl
      have hfalse : (tickN (P.length - 1) (toggleAnimation (stoppedState P))).isAnimating
          = false := by
        rw [hanim]
        simp
      have hpend : pendingTick (tickN (P.length - 1) (toggleAnimation (stoppedState P)))
          = false := by
        simp [pendingTick, hfalse]
      have hfix := tick_of_not_pending _ hpend
      have hsame : tickN N (toggleAnimation (stoppedState P)) =
          tickN (P.length - 1) (toggleAnimation (stoppedState P)) := by
        rw [show N = (N - (P.length - 1)) + (P.length - 1) from by omega, tickN_add]
        exact tickN_fix _ hfix _
      rw [hsame]
      refine ⟨?_, fun _ => ⟨hfalse, hpend, hfix⟩⟩
      simp only [revealedCount, hcs]
      omega
  refine ⟨hmain.1, hmain.2, ?_⟩
  cases op with
  | toggle =>
    obtain ⟨_, hcs, hfp⟩ := toggleAnimation_fields s
    simpa [applyOp, revealedCount, hcs, hfp] using hInv
  | reset d g n k Z =>
    simp [applyOp, resetSimulation, revealedCount, generatePath_length]
  | tickOp =>
    by_cases hp : pendingTick s = true
    · have hlt : s.currentStep < s.fullPath.length - 1 := by
        have h' := hp
        simp [pendingTick] at h'
        exact h'.2
      simp only [applyOp, tick, hp, if_true, revealedCount]
      omega
    · simp only [Bool.not_eq_true] at hp
      simpa [applyOp, tick_of_not_pending s hp] using hInv

/-- Witness for C3 at a three-sample path, `N = 5`, and a concrete state and
operation satisfying the invariant. -/
theorem c3_playback_progress_witness :
    revealedCount (tickN 5 (toggleAnimation (stoppedState demoPath3))) =
      min (1 + 5) demoPath3.length ∧
    (demoPath3.length - 1 ≤ 5 →
      (tickN 5 (toggleAnimation (stoppedState demoPath3))).isAnimating = false ∧
      pendingTick (tickN 5 (toggleAnimation (stoppedState demoPath3))) = false ∧
      tick (tickN 5 (toggleAnimation (stoppedState demoPath3))) =
        tickN 5 (toggleAnimation (stoppedState demoPath3))) ∧
    revealedCount (applyOp Op.tickOp (stoppedState demoPath3)) ≤
      (applyOp Op.tickOp (stoppedState demoPath3)).fullPath.length :=
  c3_playback_progress demoPath3 (by simp [demoPath3]) 5 (stoppedState demoPath3)
    Op.tickOp (by simp [stoppedState, revealedCount, demoPath3])

/-- C4: from any state, `resetSimulation` leaves `isAnimating = false` and
`revealedCount = 1`, no frame is scheduled, and the regenerated full path has
`stepCount + 1` samples, starts at `{0, 0}`, and has uniformly spaced times
`i * (intervalLength / stepCount)`. -/
theorem c4_reset_state (drift diffusion : ℝ) (steps : ℕ) (k : ℝ) (Z : ℕ → ℝ)
    (s : SimState) :
    (resetSimulation drift diffusion steps k Z s).isAnimating = false ∧
    revealedCount (resetSimulation drift diffusion steps k Z s) = 1 ∧
    pendingTick (resetSimulation drift diffusion steps k Z s) = false ∧
    (resetSimulation drift diffusion steps k Z s).fullPath.length = steps + 1 ∧
    (resetSimulation drift diffusion steps k Z s).fullPath.getD 0
      { time := 0, value := 0 } = { time := 0, value := 0 } ∧
    ∀ i, i ≤ steps →
      ((resetSimulation drift diffusion steps k Z s).fullPath.getD i
        { time := 0, value := 0 }).time = (i : ℝ) * (k / (steps : ℝ)) := by
  refine ⟨rfl, rfl, by simp [pendingTick, resetSimulation], ?_, ?_, ?_⟩
  · exact generatePath_length drift diffusion steps k Z
  · simp [resetSimulation, generatePath]
  · intro i hi
    show ((generatePath drift diffusion steps k Z).getD i { time := 0, value := 0 }).time = _
    rw [generatePath_getD drift diffusion steps k Z i hi]

/-- C5: pausing while running cancels the scheduled frame and changes only
the running flag (`currentStep`, revealed `path` and `fullPath` are
preserved); in particular pausing immediately after starting from Stopped
leaves `revealedCount` at 1. -/
theorem c5_pause_preserves (s : SimState) (P : List BrownianPoint)
    (h : s.isAnimating = true) :
    (toggleAnimation s).isAnimating = false ∧
    pendingTick (toggleAnimation s) = false ∧
    (toggleAnimation s).currentStep = s.currentStep ∧
    (toggleAnimation s).path = s.path ∧
    (toggleAnimation s).fullPath = s.fullPath ∧
    revealedCount (toggleAnimation (toggleAnimation (stoppedState P))) = 1 := by
  refine ⟨by simp [toggleAnimation, h], by simp [pendingTick, toggleAnimation, h],
    by simp [toggleAnimation, h], by simp [toggleAnimation, h],
    by simp [toggleAnimation, h], ?_⟩
  simp [toggleAnimation, stoppedState, revealedCount]

/-- Witness for C5 at a concrete running state. -/
theorem c5_pause_preserves_witness :
    (toggleAnimation demoRunning).isAnimating = false ∧
    pendingTick (toggleAnimation demoRunning) = false ∧
    (toggleAnimation demoRunning).currentStep = demoRunning.currentStep ∧
    (toggleAnimation demoRunning).path = demoRunning.path ∧
    (toggleAnimation demoRunning).fullPath = demoRunning.fullPath ∧
    revealedCount (toggleAnimation (toggleAnimation (stoppedState []))) = 1 :=
  c5_pause_preserves demoRunning [] rfl

/-- Taking an entry below the cut of `List.take` reads the original list. -/
theorem getD_take {α : Type} (d : α) :
    ∀ (l : List α) (n j : ℕ), j < n → (l.take n).getD j d = l.getD j d := by
  intro l
  induction l with
  | nil => intro n j _; simp
  | cons a t ih =>
    intro n j h
    cases n with
    | zero => omega
    | succ m =>
      cases j with
      | zero => simp
      | succ jj =>
        simp only [List.take, List.getD_cons_succ]
        exact ih m jj (by omega)

/-- C9: a fired tick reveals exactly `fullPath.slice(0, currentStep + 1)`
(the post-tick `currentStep`); reset empties the revealed path; every
operation keeps the revealed path an initial segment of the full path; and a
tick alters no revealed sample. -/
theorem c9_revealed_initial_segment (s t : SimState) (op : Op)
    (d2 g2 : ℝ) (n2 : ℕ) (k2 : ℝ) (Z2 : ℕ → ℝ)
    (hpend : pendingTick s = true) (hpre : ∃ n, t.path = t.fullPath.take n) :
    (tick s).path = s.fullPath.take ((tick s).currentStep + 1) ∧
    (resetSimulation d2 g2 n2 k2 Z2 t).path = [] ∧
    (∃ n, (applyOp op t).path = (applyOp op t).fullPath.take n) ∧
    ∀ j, j < (tick s).path.length →
      (tick s).path.getD j { time := 0, value := 0 } =
        s.fullPath.getD j { time := 0, value := 0 } := by
  have h1 : (tick s).path = s.fullPath.take (s.currentStep + 2) := by
    simp [tick, hpend]
  have hcs : (tick s).currentStep = s.currentStep + 1 := by
    simp [tick, hpend]
  refine ⟨by rw [h1, hcs], rfl, ?_, ?_⟩
  · cases op with
    | toggle =>
      obtain ⟨n, hn⟩ := hpre
      obtain ⟨hpath, _, hfp⟩ := toggleAnimation_fields t
      exact ⟨n, by rw [applyOp, hpath, hfp, hn]⟩
    | reset d g n k Z => exact ⟨0, by simp [applyOp, resetSimulation]⟩
    | tickOp =>
      by_cases hp : pendingTick t = true
      · exact ⟨t.currentStep + 2, by simp [applyOp, tick, hp]⟩
      · simp only [Bool.not_eq_true] at hp
        obtain ⟨n, hn⟩ := hpre
        exact ⟨n, by rw [applyOp, tick_of_not_pending t hp, hn]⟩
  · intro j hj
    rw [h1] at hj ⊢
    have hj2 : j < s.currentStep + 2 := by
      rw [List.length_take] at hj
      omega
    exact getD_take _ s.fullPath (s.currentStep + 2) j hj2

/-- Witness for C9 at a concrete pending state and a state whose revealed
path is an initial segment. -/
theorem c9_revealed_initial_segment_witness :
    (tick demoRunning2).path = demoRunning2.fullPath.take ((tick demoRunning2).currentStep + 1) ∧
    (resetSimulation 0 1 2 1 (fun _ => 0) (stoppedState [])).path = [] ∧
    (∃ n, (applyOp Op.toggle (stoppedState [])).path =
      (applyOp Op.toggle (stoppedState [])).fullPath.take n) ∧
    ∀ j, j < (tick demoRunning2).path.length →
      (tick demoRunning2).path.getD j { time := 0, value := 0 } =
        demoRunning2.fullPath.getD j { time := 0, value := 0 } :=
  c9_revealed_initial_segment demoRunning2 (stoppedState []) Op.toggle 0 1 2 1 (fun _ => 0)
    (by simp [pendingTick, demoRunning2, demoPath2]) ⟨0, by simp [stoppedState]⟩

/-- C10: with an empty revealed path — right after reset, before any tick —
the exposed current value and current time both read `0`. -/
theorem c10_empty_reads_origin (d g : ℝ) (n : ℕ) (k : ℝ) (Z : ℕ → ℝ) (s : SimState) :
    currentValue [] = 0 ∧ currentTime [] = 0 ∧
    currentValue (resetSimulation d g n k Z s).path = 0 ∧
    currentTime (resetSimulation d g n k Z s).path = 0 := by
  refine ⟨by simp [currentValue], by simp [currentTime], ?_, ?_⟩ <;>
    simp [currentValue, currentTime, resetSimulation]

/-! ### Renderer range lemmas -/

/-- The 0-seeded minimum of a list of reals is nonpositive. -/
theorem foldr_min_nonpos (vs : List ℝ) : vs.foldr min 0 ≤ 0 := by
  induction vs with
  | nil => simp
  | cons v t ih => exact le_trans (min_le_right v _) ih

/-- The 0-seeded maximum of a list of reals is nonnegative. -/
theorem foldr_max_nonneg (vs : List ℝ) : 0 ≤ vs.foldr max 0 := by
  induction vs with
  | nil => simp
  | cons v t ih => exact le_trans ih (le_max_right v _)

/-- `max |min(vs, 0)| |max(vs, 0)|` is the maximum absolute value of `vs`
(seeded with 0). -/
theorem max_abs_foldr (vs : List ℝ) :
    max |vs.foldr min 0| |vs.foldr max 0| = (vs.map (fun v => |v|)).foldr max 0 := by
  induction vs with
  | nil => simp
  | cons v t ih =>
    simp only [List.foldr_cons, List.map_cons]
    rw [← ih]
    rw [abs_of_nonpos (foldr_min_nonpos t), abs_of_nonneg (foldr_max_nonneg t),
      abs_of_nonpos (le_trans (min_le_right v _) (foldr_min_nonpos t)),
      abs_of_nonneg (le_trans (foldr_max_nonneg t) (le_max_right v _))]
    rw [show -min v (t.foldr min 0) = max (-v) (-(t.foldr min 0)) from by
      rw [← max_neg_neg]]
    rw [abs_eq_max_neg, max_max_max_comm, max_comm (-v) v]

/-- The renderer's range is `max (maxAbs * 1.2) 0.5` where `maxAbs` is the
maximum absolute value over the full path. -/
theorem computeRange_eq (P : List BrownianPoint) :
    computeRange P = max (pathMaxAbs P * 1.2) 0.5 := by
  simp only [computeRange, pathMaxAbs]
  rw [max_abs_foldr, List.map_map]
  rfl

/-- C8: the symmetric axis range equals
`max (1.2 * maxAbs over the full path) 0.5`; a full path with maximum
absolute value `3` yields range `3.6`, and one with maximum absolute value
`0.1` yields the floor `0.5`. -/
theorem c8_range_policy (P Q R : List BrownianPoint)
    (hQ : pathMaxAbs Q = 3) (hR : pathMaxAbs R = 0.1) :
    computeRange P = max (1.2 * pathMaxAbs P) 0.5 ∧
    computeRange Q = 3.6 ∧ computeRange R = 0.5 := by
  refine ⟨?_, ?_, ?_⟩
  · rw [computeRange_eq, mul_comm]
  · rw [computeRange_eq, hQ]
    norm_num
  · rw [computeRange_eq, hR]
    norm_num

/-- Witness for C8 at one-sample paths with values `3` and `0.1`. -/
theorem c8_range_policy_witness :
    computeRange [({ time := 0, value := 1 } : BrownianPoint)] =
      max (1.2 * pathMaxAbs [({ time := 0, value := 1 } : BrownianPoint)]) 0.5 ∧
    computeRange [({ time := 0, value := 3 } : BrownianPoint)] = 3.6 ∧
    computeRange [({ time := 0, value := 0.1 } : BrownianPoint)] = 0.5 :=
  c8_range_policy [{ time := 0, value := 1 }] [{ time := 0, value := 3 }]
    [{ time := 0, value := 0.1 }]
    (by norm_num [pathMaxAbs]) (by norm_num [pathMaxAbs])

/-- C6 (evaluation at the failing input): when the uniform source returns
exactly `0` for `u1`, the sampler does NOT resample — it applies `Math.log`
to the zero draw, producing `Infinity`, and with `drift = 0`, `diffusion = 1`,
`steps = 1`, `intervalLength = 1` this non-finite draw is propagated into the
generated path, whose second sample has value `Infinity`. -/
theorem c6_zero_draw_propagates :
    jsGenerateNormalRandom 0 0 = JsNum.inf ∧
    jsGeneratePath 0 1 1 1 (fun _ => (0, 0)) =
      [{ time := JsNum.fin 0, value := JsNum.fin 0 },
       { time := JsNum.fin 1, value := JsNum.inf }] := by
  have hz : jsGenerateNormalRandom 0 0 = JsNum.inf := by
    simp only [jsGenerateNormalRandom, jsLog, jsSqrt, jsCos, jsMul]
    norm_num [Real.cos_zero]
  refine ⟨hz, ?_⟩
  simp only [jsGeneratePath, jsGenLoop, hz, jsDiv, jsSqrt, jsAdd, jsMul]
  norm_num [Real.sqrt_one]

end

end BrownianViz
